import Mathlib

/-!
Verification development for the Integrity & Verification Engine of the
transparency portal repository (backend/utils/crypto.js and
backend/routes/verification.js), shallowly embedded in Lean 4.

Modelling conventions:
* A JavaScript record (plain object) is an association list of
  (field name, value) pairs in insertion order; `Object.keys` returns the
  key list in that order and JS objects never hold duplicate keys, so
  theorems carry a `Nodup` hypothesis on the key list where it matters.
* JS values are modelled by `JValue`.  `Date` values are represented by
  their ISO-8601 string rendering, which is exactly how `JSON.stringify`
  serializes them.  `undefined` and `null` are separate constructors, both
  dropped by `createCanonicalJson`; functions and binary buffers are kept
  so that `JSON.stringify`'s treatment of them (silent omission, resp.
  `toJSON` expansion) is captured.
* Node's `crypto` SHA-256 and forge's RSA are external libraries, not code
  of this repository; they are modelled as ideal primitives: `sha256Hex`
  is an injective digest function (collision-freeness idealised) and the
  RSA pair is an ideal signature scheme in which a signature verifies
  exactly when it equals the signing function applied to the same digest
  with the key matching the supplied public key.  PEM texts and base64
  strings are modelled by whether forge can parse them (`Pem`, `B64`).
* Timestamps (`new Date().toISOString()`), log output, QR codes and the
  freshly generated certificate id are dropped: no claim is about them.
-/

/-- A JavaScript value as it can occur in a record field map. -/
inductive JValue where
  | str (s : String)
  | num (n : Int)
  | bool (b : Bool)
  | null
  | undef
  | func (id : Nat)
  | blob (bytes : List Nat)
deriving DecidableEq

/-- A JS object: association list in insertion order (keys are unique). -/
abbrev JRecord := List (String × JValue)

/-- `record[key] !== null && record[key] !== undefined` - the check in
`createCanonicalJson` that keeps a field. -/
def JValue.isPresent : JValue → Bool
  | .null => false
  | .undef => false
  | _ => true

/-- Values of the kinds the data model admits for business fields:
string / number / boolean (dates being ISO strings). -/
def JValue.isData : JValue → Bool
  | .str _ => true
  | .num _ => true
  | .bool _ => true
  | _ => false

/-- Data-model values including the absent markers: everything except
callables and binary blobs. -/
def JValue.isModel : JValue → Bool
  | .func _ => false
  | .blob _ => false
  | _ => true

/-- A callable value (`typeof v === 'function'`), which `JSON.stringify`
silently omits from object output. -/
def JValue.isFunc : JValue → Bool
  | .func _ => true
  | _ => false

/-- `record[key]` on the association list (JS objects have unique keys, so
taking the first binding is exact). -/
def lookupField : JRecord → String → Option JValue
  | [], _ => none
  | (k', v) :: rest, k => if k' = k then some v else lookupField rest k

/-- `record[key] = value`: update in place if the key exists, append
otherwise. -/
def setField : JRecord → String → JValue → JRecord
  | [], k, v => [(k, v)]
  | (k', w) :: rest, k, v =>
      if k' = k then (k, v) :: rest else (k', w) :: setField rest k v

/-- `Object.keys(record)`. -/
def recKeys (r : JRecord) : List String := r.map Prod.fst

/-- The exclusion set of `createCanonicalJson` (crypto.js line 118). -/
def excludeFields : List String :=
  ["record_hash", "created_at", "updated_at", "verification_status", "canonical_json"]

/-- Lexicographic less-or-equal on strings by character code point - the
default JS `Array.prototype.sort` comparison on strings. -/
def strLe (a b : String) : Prop := a.data ≤ b.data

instance : DecidableRel strLe := fun a b =>
  inferInstanceAs (Decidable (a.data ≤ b.data))

/-- `Object.keys(record).filter(key => !excludeFields.includes(key)).sort()`:
the non-excluded keys in ascending (lexicographic) order. -/
def sortedKeys (r : JRecord) : List String :=
  ((recKeys r).filter (fun k => ¬ excludeFields.contains k)).insertionSort strLe

/-- The `cleanRecord` object built by `createCanonicalJson`: for each
sorted non-excluded key, keep the field when its value is neither null nor
undefined. -/
def cleanRecord (r : JRecord) : JRecord :=
  (sortedKeys r).filterMap (fun k =>
    match lookupField r k with
    | some v => if v.isPresent then some (k, v) else none
    | none => none)

/-! ## JSON.stringify, at the character-list level -/

/-- The escape sequence `JSON.stringify` emits for one character inside a
string literal (quotes, backslashes and the common control characters). -/
def escChar (c : Char) : List Char :=
  if c = '"' then ['\\', '"']
  else if c = '\\' then ['\\', '\\']
  else if c = '\n' then ['\\', 'n']
  else if c = '\t' then ['\\', 't']
  else if c = '\r' then ['\\', 'r']
  else [c]

/-- Escape a whole string body. -/
def escapeChars (cs : List Char) : List Char := cs.flatMap escChar

/-- A JSON string literal: `"` body `"`. -/
def serString (cs : List Char) : List Char := '"' :: escapeChars cs ++ ['"']

/-- The decimal digit character for `d < 10`. -/
def digitChar (d : Nat) : Char :=
  if d = 0 then '0' else if d = 1 then '1' else if d = 2 then '2'
  else if d = 3 then '3' else if d = 4 then '4' else if d = 5 then '5'
  else if d = 6 then '6' else if d = 7 then '7' else if d = 8 then '8'
  else '9'

/-- Decimal digits with a fuel bound (structural recursion, so that the
kernel can evaluate it). -/
def natCharsF : Nat → Nat → List Char
  | 0, _ => []
  | fuel + 1, n =>
    if n < 10 then [digitChar n]
    else natCharsF fuel (n / 10) ++ [digitChar (n % 10)]

/-- Decimal digits of a natural number, most significant first. -/
def natChars (n : Nat) : List Char := natCharsF (n + 1) n

/-- Decimal rendering of an integer, as `JSON.stringify` prints a whole
JS number. -/
def serInt (n : Int) : List Char :=
  if n < 0 then '-' :: natChars n.natAbs else natChars n.toNat

/-- Comma-join a list of fragments. -/
def joinComma : List (List Char) → List Char
  | [] => []
  | [x] => x
  | x :: xs => x ++ ',' :: joinComma xs

/-- `JSON.stringify` of one value.  `null` prints as `null` (it never
reaches serialization here because `createCanonicalJson` drops it);
functions and `undefined` produce nothing (their keys are omitted - that
filtering happens in `stringifyEntries`); a Node `Buffer` serializes via
its `toJSON()` expansion. -/
def serJValue : JValue → List Char
  | .str s => serString s.data
  | .num n => serInt n
  | .bool b => if b then ['t', 'r', 'u', 'e'] else ['f', 'a', 'l', 's', 'e']
  | .null => ['n', 'u', 'l', 'l']
  | .undef => []
  | .func _ => []
  | .blob bs =>
      '{' :: serString "type".data ++ ':' :: serString "Buffer".data ++
        ',' :: serString "data".data ++ ':' :: '[' ::
          joinComma (bs.map natChars) ++ [']', '}']

/-- One `"key":value` member. -/
def serEntry (p : String × JValue) : List Char :=
  serString p.1.data ++ ':' :: serJValue p.2

/-- The members of an object body, comma-separated. -/
def serEntries (l : JRecord) : List Char := joinComma (l.map serEntry)

/-- `JSON.stringify` drops properties whose value is a function or
`undefined`. -/
def stringifyEntries (l : JRecord) : JRecord :=
  l.filter (fun p => ¬ (p.2.isFunc || p.2 = JValue.undef))

/-- `createCanonicalJson(record)` (crypto.js lines 116-131): drop excluded
fields and null/absent values, sort the remaining keys, and
`JSON.stringify` the resulting object with no whitespace. -/
def createCanonicalJson (r : JRecord) : String :=
  String.mk ('{' :: serEntries (stringifyEntries (cleanRecord r)) ++ ['}'])

/-- Modelled: Node crypto's SHA-256 hex digest as an ideal (collision-free)
digest of its input string; the repository calls
`crypto.createHash('sha256').update(s).digest('hex')`. -/
def sha256Hex (s : String) : String := "sha256:" ++ s

/-- `generateHash(record)` (crypto.js lines 136-139). -/
def generateHash (r : JRecord) : String := sha256Hex (createCanonicalJson r)

/-! ## Crypto primitives (forge RSA), modelled as an ideal scheme -/

/-- A PEM text: either one forge can parse (identified by the key id it
encodes) or a malformed one (on which `forge.pki.publicKeyFromPem`
throws). -/
inductive Pem where
  | valid (keyId : Nat)
  | malformed (junk : String)
deriving DecidableEq

/-- A base64 signature string: either one that decodes to bytes or a
malformed one (on which decoding throws). -/
inductive B64 where
  | valid (bytes : List Nat)
  | malformed (junk : String)
deriving DecidableEq

/-- A parsed public key. -/
structure PubKey where
  keyId : Nat
deriving DecidableEq

/-- Model of `forge.pki.publicKeyFromPem`: `none` means the call throws. -/
def parsePublicKeyPem : Pem → Option PubKey
  | .valid i => some ⟨i⟩
  | .malformed _ => none

/-- Model of base64 decoding: `none` means the call throws. -/
def decode64 : B64 → Option (List Nat)
  | .valid bs => some bs
  | .malformed _ => none

/-- Ideal RSA signing of a digest string with the private key `keyId`:
an injective function of the key and the digest. -/
def rsaSign (keyId : Nat) (digest : String) : List Nat :=
  keyId :: digest.data.map Char.toNat

/-- Ideal RSA verification: the signature bytes verify against a public
key and a digest exactly when they are the signature of that digest under
the matching private key. -/
def rsaVerify (pk : PubKey) (digest : String) (sigBytes : List Nat) : Bool :=
  sigBytes == rsaSign pk.keyId digest

/-- The `CryptoUtils` singleton after `loadKeys()` has succeeded: it holds
one RSA key pair, identified by its key id.  `this.publicKey` is the PEM
of that pair's public half. -/
structure Engine where
  keyId : Nat

/-- `this.publicKey` of the engine. -/
def Engine.publicKeyPem (e : Engine) : Pem := Pem.valid e.keyId

/-- Signer identity fields of `signRecord`'s `signerInfo` argument
(each may be absent, in which case a default is used). -/
structure SignerInfo where
  name : Option String := none
  role : Option String := none
  email : Option String := none

/-- The signer identity embedded in a signature. -/
structure SignerIdent where
  name : String
  role : String
  email : String
deriving DecidableEq

/-- The object returned by `signRecord`. -/
structure SignResult where
  signature : B64
  publicKey : Pem
  signerInfo : SignerIdent
  algorithm : String
deriving DecidableEq

/-- `signRecord(record, signerInfo)` (crypto.js lines 144-169): sign the
SHA-256 digest of the canonical JSON with the engine's private key. -/
def signRecord (e : Engine) (r : JRecord) (info : SignerInfo) : SignResult :=
  { signature := B64.valid (rsaSign e.keyId (sha256Hex (createCanonicalJson r)))
    publicKey := e.publicKeyPem
    signerInfo :=
      { name := info.name.getD "System"
        role := info.role.getD "Automated"
        email := info.email.getD "system@transparency.gov" }
    algorithm := "RSA-SHA256" }

/-- The object returned by `verifySignature`: on the success path `error`
is absent; on the catch path `isValid` is false and `error` carries the
exception's message. -/
structure VerifyOutcome where
  isValid : Bool
  error : Option String
deriving DecidableEq

/-- `verifySignature(record, signature, publicKey = null)` (crypto.js
lines 174-202): recompute the digest, fall back to the engine's own
public key when none is supplied, and convert any parse or decode
exception into `{isValid: false, error}`. -/
def verifySignature (e : Engine) (r : JRecord) (signature : B64)
    (publicKey : Option Pem) : VerifyOutcome :=
  let digest := sha256Hex (createCanonicalJson r)
  let keyToUse := publicKey.getD e.publicKeyPem
  match parsePublicKeyPem keyToUse with
  | none => { isValid := false, error := some "Invalid PEM formatted message." }
  | some pk =>
    match decode64 signature with
    | none => { isValid := false, error := some "Invalid base64 string." }
    | some sigBytes => { isValid := rsaVerify pk digest sigBytes, error := none }

/-- The object returned by `verifyRecordIntegrity`. -/
structure IntegrityOutcome where
  isValid : Bool
  storedHash : String
  computedHash : String
deriving DecidableEq

/-- `verifyRecordIntegrity(record, storedHash)` (crypto.js lines 207-215). -/
def verifyRecordIntegrity (r : JRecord) (storedHash : String) : IntegrityOutcome :=
  { isValid := generateHash r == storedHash
    storedHash := storedHash
    computedHash := generateHash r }

/-! ## completeVerification and the verification routes -/

/-- The tri-state trust status. -/
inductive VStatus where
  | verified
  | pending
  | suspicious
deriving DecidableEq

/-- A row of the `approvals` table as `completeVerification` consumes it:
the stored base64 signature, the stored public key PEM (nullable column),
and the approver identity columns. -/
structure SigRow where
  signature : B64
  public_key : Option Pem
  approver_name : String
  approver_role : String
  approver_email : String
  signed_at : String
deriving DecidableEq

/-- One element of `signatureVerifications`: the `verifySignature` outcome
extended with the signer identity copied from the approval row. -/
structure SigVerification where
  isValid : Bool
  error : Option String
  signerName : String
  signerRole : String
  signerEmail : String
  signedAt : String
deriving DecidableEq

/-- The per-signature verification `completeVerification` builds for one
approval row. -/
def mkSigVerification (e : Engine) (r : JRecord) (sig : SigRow) : SigVerification :=
  let o := verifySignature e r sig.signature sig.public_key
  { isValid := o.isValid
    error := o.error
    signerName := sig.approver_name
    signerRole := sig.approver_role
    signerEmail := sig.approver_email
    signedAt := sig.signed_at }

/-- The object returned by `completeVerification`. -/
structure CVResult where
  recordId : Option JValue
  verificationStatus : VStatus
  hashVerification : IntegrityOutcome
  signatureVerifications : List SigVerification
  overallValid : Bool
deriving DecidableEq

/-- `completeVerification(record, storedHash, signatures)` (crypto.js
lines 220-253). -/
def completeVerification (e : Engine) (r : JRecord) (storedHash : String)
    (signatures : List SigRow) : CVResult :=
  let hashVerification := verifyRecordIntegrity r storedHash
  let signatureVerifications := signatures.map (mkSigVerification e r)
  let allSignaturesValid :=
    signatureVerifications.length > 0 &&
      signatureVerifications.all (·.isValid)
  let verificationStatus :=
    if hashVerification.isValid && allSignaturesValid then VStatus.verified
    else if hashVerification.isValid && signatureVerifications.length == 0 then VStatus.pending
    else VStatus.suspicious
  { recordId := lookupField r "id"
    verificationStatus := verificationStatus
    hashVerification := hashVerification
    signatureVerifications := signatureVerifications
    overallValid :=
      hashVerification.isValid &&
        (allSignaturesValid || signatureVerifications.length == 0) }

/-- The per-approval view in the verification report (verification.js
lines 85-98): identity columns plus `hasValidSignature`, looked up by
approver name in `signatureVerifications` with `|| false` fallback. -/
structure ApprovalView where
  name : String
  role : String
  email : String
  signedAt : String
  hasValidSignature : Bool
deriving DecidableEq

/-- The `verificationSummary` block of the report (lines 100-106). -/
structure ReportSummary where
  overallStatus : VStatus
  hashIntegrity : Bool
  signatureCount : Nat
  validSignatures : Nat
deriving DecidableEq

/-- The verification report of `GET /api/verify/:recordType/:recordId`
(verification.js lines 76-112), restricted to its computed parts. -/
structure Report where
  verification : CVResult
  approvals : List ApprovalView
  verificationSummary : ReportSummary
deriving DecidableEq

/-- Build the approval views from the approval rows and the verification's
signature list (verification.js lines 85-98). -/
def mkApprovalViews (svs : List SigVerification) (approvals : List SigRow) :
    List ApprovalView :=
  approvals.map (fun approval =>
    { name := approval.approver_name
      role := approval.approver_role
      email := approval.approver_email
      signedAt := approval.signed_at
      hasValidSignature :=
        ((svs.find? (fun sv => sv.signerName = approval.approver_name)).map
          (·.isValid)).getD false })

/-- Assemble the verification report for one record (verification.js
lines 52-112). -/
def mkReport (e : Engine) (r : JRecord) (storedHash : String)
    (approvals : List SigRow) : Report :=
  let verification := completeVerification e r storedHash approvals
  { verification := verification
    approvals := mkApprovalViews verification.signatureVerifications approvals
    verificationSummary :=
      { overallStatus := verification.verificationStatus
        hashIntegrity := verification.hashVerification.isValid
        signatureCount := approvals.length
        validSignatures :=
          (verification.signatureVerifications.filter (·.isValid)).length } }

/-- Outcome of the single-record endpoint as the batch and certificate
routes observe it: either the report JSON or an error JSON. -/
inductive SingleResponse where
  | ok (report : Report)
  | err (msg : String)
deriving DecidableEq

/-- The storage collaborator: fetch a record and its approvals by
(record type, record id); `none` models a missing row. -/
def Db := String → String → Option (JRecord × List SigRow)

/-- The record types the single endpoint accepts (verification.js
line 18). -/
def validTypes : List String := ["budget", "project", "vendor", "transaction"]

/-- `GET /api/verify/:recordType/:recordId` (verification.js lines 13-120):
reject invalid types, 404 on a missing record, otherwise the report built
from the fetched record, its stored hash and its approvals. -/
def singleVerify (e : Engine) (db : Db) (recordType recordId : String) :
    SingleResponse :=
  if ¬ validTypes.contains recordType then .err "Invalid record type"
  else
    match db recordType recordId with
    | none => .err "Record not found"
    | some (record, approvals) =>
        .ok (mkReport e record
          ((lookupField record "record_hash").getD JValue.null |> fun v =>
            match v with | .str s => s | _ => "") approvals)

/-- The status strings of a batch item result. -/
inductive BatchStatus where
  | verified
  | pending
  | suspicious
  | error
deriving DecidableEq

/-- Embed a report status into a batch status string. -/
def BatchStatus.ofV : VStatus → BatchStatus
  | .verified => .verified
  | .pending => .pending
  | .suspicious => .suspicious

/-- One element of the batch `verificationResults` array (verification.js
lines 146-161). -/
structure BatchResult where
  recordId : String
  recordType : String
  status : BatchStatus
  verified : Bool
  error : Option String
deriving DecidableEq

/-- One batch request item. -/
structure BatchItem where
  recordType : String
  recordId : String
deriving DecidableEq

/-- How the batch loop turns one single-endpoint response into one result:
on a report, its overall status and validity; on an error JSON the
optional chaining yields `status: 'error'`, `verified: false` and the
error message (verification.js lines 140-161). -/
def itemResult (item : BatchItem) : SingleResponse → BatchResult
  | .ok report =>
      { recordId := item.recordId
        recordType := item.recordType
        status := BatchStatus.ofV report.verificationSummary.overallStatus
        verified := report.verification.overallValid
        error := none }
  | .err msg =>
      { recordId := item.recordId
        recordType := item.recordType
        status := BatchStatus.error
        verified := false
        error := some msg }

/-- `POST /api/verify/batch` (verification.js lines 126-182): reject an
empty or absent array and any batch of more than 50 items before the loop,
then process every item independently. -/
def batchVerify (e : Engine) (db : Db) (records : List BatchItem) :
    Except String (List BatchResult) :=
  if records.length = 0 then .error "Records array is required"
  else if records.length > 50 then .error "Maximum 50 records allowed per batch"
  else .ok (records.map (fun item =>
    itemResult item (singleVerify e db item.recordType item.recordId)))

/-! ## A decoder for the canonical serialization

Used only to prove that the serialization is injective on cleaned records
whose values are of the data-model kinds; it is not part of the embedded
program. -/

/-- Undo one escape sequence. -/
def unescChar (c : Char) : Option Char :=
  if c = '"' then some '"'
  else if c = '\\' then some '\\'
  else if c = 'n' then some '\n'
  else if c = 't' then some '\t'
  else if c = 'r' then some '\r'
  else none

/-- Decode a string-literal body up to its closing quote, returning the
body and the remaining input. -/
def parseStr : List Char → Option (List Char × List Char)
  | [] => none
  | c :: rest =>
    if c = '"' then some ([], rest)
    else if c = '\\' then
      match rest with
      | [] => none
      | c2 :: rest2 =>
        match unescChar c2, parseStr rest2 with
        | some ch, some (s, r) => some (ch :: s, r)
        | _, _ => none
    else
      match parseStr rest with
      | some (s, r) => some (c :: s, r)
      | none => none

/-- The value of a decimal digit character. -/
def digitVal (c : Char) : Option Nat :=
  if c = '0' then some 0 else if c = '1' then some 1 else if c = '2' then some 2
  else if c = '3' then some 3 else if c = '4' then some 4 else if c = '5' then some 5
  else if c = '6' then some 6 else if c = '7' then some 7 else if c = '8' then some 8
  else if c = '9' then some 9 else none

/-- Greedily consume decimal digits, folding them into an accumulator. -/
def parseNatAux : List Char → Nat → Nat × List Char
  | [], acc => (acc, [])
  | c :: rest, acc =>
    match digitVal c with
    | some d => parseNatAux rest (acc * 10 + d)
    | none => (acc, c :: rest)

/-- Decode a decimal natural number (at least one digit). -/
def parseNat : List Char → Option (Nat × List Char)
  | [] => none
  | c :: rest =>
    match digitVal c with
    | some d => some (parseNatAux rest d)
    | none => none

/-- The remaining input does not begin with a digit, so a greedy number
decode stops exactly there. -/
def noDigitHead : List Char → Prop
  | [] => True
  | c :: _ => digitVal c = none

instance : DecidablePred noDigitHead := fun l => by
  cases l <;> simp [noDigitHead] <;> infer_instance

/-- Decode one serialized data value (string, number or boolean). -/
def parseJValue : List Char → Option (JValue × List Char)
  | [] => none
  | c :: rest =>
    if c = '"' then (parseStr rest).map (fun p => (JValue.str (String.mk p.1), p.2))
    else if c = '-' then
      match parseNat rest with
      | some (m, r) => some (JValue.num (-(m : Int)), r)
      | none => none
    else if c = 't' then
      match rest with
      | 'r' :: 'u' :: 'e' :: r => some (JValue.bool true, r)
      | _ => none
    else if c = 'f' then
      match rest with
      | 'a' :: 'l' :: 's' :: 'e' :: r => some (JValue.bool false, r)
      | _ => none
    else
      match parseNat (c :: rest) with
      | some (m, r) => some (JValue.num (m : Int), r)
      | none => none

/-- Decode one `"key":value` member. -/
def parseEntry (l : List Char) : Option ((String × JValue) × List Char) :=
  match l with
  | '"' :: rest =>
    match parseStr rest with
    | some (k, ':' :: r2) =>
      match parseJValue r2 with
      | some (v, r3) => some ((String.mk k, v), r3)
      | none => none
    | _ => none
  | _ => none

/-- Decode a comma-separated member list, with fuel bounding the number of
members. -/
def parseEntriesF : Nat → List Char → Option JRecord
  | _, [] => some []
  | 0, _ :: _ => none
  | fuel + 1, c :: l =>
    match parseEntry (c :: l) with
    | some (e, []) => some [e]
    | some (e, ',' :: rest) => (parseEntriesF fuel rest).map (e :: ·)
    | _ => none

/-- The canonically observable content of one value: itself when present,
nothing when it is null or undefined (both of which `createCanonicalJson`
drops). -/
def presentValue (v : JValue) : Option JValue :=
  if v.isPresent then some v else none

/-- The canonically observable content of a field: its value when the
field is present with a non-null, non-undefined value. -/
def presentLookup (r : JRecord) (k : String) : Option JValue :=
  (lookupField r k).bind presentValue

/-- The `integrity` block of the certificate (verification.js
lines 262-267). -/
structure CertIntegrity where
  hashVerified : Bool
  originalHash : String
  computedHash : String
  hashMatch : Bool
deriving DecidableEq

/-- One `signers` element of the certificate (lines 272-277). -/
structure CertSigner where
  name : String
  role : String
  signedAt : String
  valid : Bool
deriving DecidableEq

/-- The `authenticity` block of the certificate (lines 269-278). -/
structure CertAuthenticity where
  totalSignatures : Nat
  validSignatures : Nat
  signers : List CertSigner
deriving DecidableEq

/-- The computed parts of the verification certificate (verification.js
lines 245-296); the fresh certificate id and the timestamps are impure and
not modelled. -/
structure Certificate where
  status : VStatus
  integrity : CertIntegrity
  authenticity : CertAuthenticity
deriving DecidableEq

/-- `GET /api/verify/:recordType/:recordId/certificate` (verification.js
lines 232-304): a pure transformation of the fetched verification
report. -/
def issueCertificate (report : Report) : Certificate :=
  { status := report.verificationSummary.overallStatus
    integrity :=
      { hashVerified := report.verificationSummary.hashIntegrity
        originalHash := report.verification.hashVerification.storedHash
        computedHash := report.verification.hashVerification.computedHash
        hashMatch := report.verification.hashVerification.isValid }
    authenticity :=
      { totalSignatures := report.verificationSummary.signatureCount
        validSignatures := report.verificationSummary.validSignatures
        signers := report.approvals.map (fun approval =>
          { name := approval.name
            role := approval.role
            signedAt := approval.signedAt
            valid := approval.hasValidSignature }) } }

/-- A small concrete record used by concrete instantiations. -/
def sampleRecord : JRecord :=
  [("id", JValue.str "r1"), ("department", JValue.str "Education")]

/-- A valid approval row over `sampleRecord` by "Alice". -/
def sampleGoodSig : SigRow :=
  { signature := (signRecord ⟨0⟩ sampleRecord {}).signature
    public_key := some (Pem.valid 0)
    approver_name := "Alice"
    approver_role := "Director"
    approver_email := "alice@example.gov"
    signed_at := "t1" }

/-- An invalid approval row over `sampleRecord`, also by "Alice". -/
def sampleBadSig : SigRow :=
  { signature := B64.malformed "zz"
    public_key := some (Pem.valid 0)
    approver_name := "Alice"
    approver_role := "Clerk"
    approver_email := "alice2@example.gov"
    signed_at := "t2" }

/-! ## Status resolution (claims C1, C2) -/

/-- C1: `completeVerification` returns status `suspicious` whenever the
recomputed hash differs from the stored hash, for every record and every
signature list: the tamper signal dominates all other signals. -/
theorem suspicious_of_hash_mismatch (e : Engine) (r : JRecord)
    (storedHash : String) (sigs : List SigRow)
    (h : generateHash r ≠ storedHash) :
    (completeVerification e r storedHash sigs).verificationStatus =
      VStatus.suspicious := by
  simp [completeVerification, verifyRecordIntegrity, h]

/-- Witness for `suspicious_of_hash_mismatch`: a record whose hash does
not match a tampered stored hash is reported suspicious even though a
valid signature is attached. -/
theorem suspicious_of_hash_mismatch_witness :
    generateHash [("a", JValue.str "x")] ≠ "tampered" ∧
      (completeVerification ⟨0⟩ [("a", JValue.str "x")] "tampered"
        [{ signature := (signRecord ⟨0⟩ [("a", JValue.str "x")] {}).signature
           public_key := some (Pem.valid 0)
           approver_name := "Alice", approver_role := "Auditor"
           approver_email := "a@x", signed_at := "t" }]).verificationStatus =
        VStatus.suspicious :=
  ⟨by decide, suspicious_of_hash_mismatch _ _ _ _ (by decide)⟩

/-- C2: `completeVerification` returns `pending` exactly when the hash
matches and the signature list is empty; in every other case the status is
`verified` or `suspicious`. -/
theorem pending_iff_match_and_no_sigs (e : Engine) (r : JRecord)
    (storedHash : String) (sigs : List SigRow) :
    ((completeVerification e r storedHash sigs).verificationStatus =
        VStatus.pending ↔ generateHash r = storedHash ∧ sigs = []) ∧
      (¬ (generateHash r = storedHash ∧ sigs = []) →
        (completeVerification e r storedHash sigs).verificationStatus =
            VStatus.verified ∨
          (completeVerification e r storedHash sigs).verificationStatus =
            VStatus.suspicious) := by
  by_cases hm : generateHash r = storedHash
  · cases sigs with
    | nil => simp [completeVerification, verifyRecordIntegrity, hm]
    | cons s rest =>
      refine ⟨?_, fun _ => ?_⟩
      · simp only [completeVerification, verifyRecordIntegrity, hm]
        simp only [beq_self_eq_true, Bool.true_and]
        split
        · simp
        · split <;> simp_all
      · simp only [completeVerification, verifyRecordIntegrity, hm]
        simp only [beq_self_eq_true, Bool.true_and]
        split
        · simp
        · split <;> simp_all
  · simp [completeVerification, verifyRecordIntegrity, hm]

/-- Witness for `pending_iff_match_and_no_sigs`: with a matching hash and
no signatures the status is `pending`, and with one (invalid) signature it
is not. -/
theorem pending_iff_match_and_no_sigs_witness :
    (completeVerification ⟨0⟩ [("a", JValue.str "x")]
        (generateHash [("a", JValue.str "x")]) []).verificationStatus =
      VStatus.pending ∧
    ((completeVerification ⟨0⟩ [("a", JValue.str "x")]
        (generateHash [("a", JValue.str "x")])
        [{ signature := B64.malformed "zz", public_key := some (Pem.valid 0)
           approver_name := "Alice", approver_role := "Auditor"
           approver_email := "a@x", signed_at := "t" }]).verificationStatus =
      VStatus.verified ∨
    (completeVerification ⟨0⟩ [("a", JValue.str "x")]
        (generateHash [("a", JValue.str "x")])
        [{ signature := B64.malformed "zz", public_key := some (Pem.valid 0)
           approver_name := "Alice", approver_role := "Auditor"
           approver_email := "a@x", signed_at := "t" }]).verificationStatus =
      VStatus.suspicious) := by
  have h1 := (pending_iff_match_and_no_sigs ⟨0⟩ [("a", JValue.str "x")]
    (generateHash [("a", JValue.str "x")]) []).1.mpr ⟨rfl, rfl⟩
  have h2 := (pending_iff_match_and_no_sigs ⟨0⟩ [("a", JValue.str "x")]
    (generateHash [("a", JValue.str "x")])
    [{ signature := B64.malformed "zz", public_key := some (Pem.valid 0)
       approver_name := "Alice", approver_role := "Auditor"
       approver_email := "a@x", signed_at := "t" }]).2 (by simp)
  exact ⟨h1, h2⟩

/-! ## Signature verification boundary (claims C6, C10) -/

/-- C6: `verifySignature` is total (it is a plain function into
`VerifyOutcome`, never an exception), and on any key-parse or decode
failure it returns `isValid = false` together with an error message
string. -/
theorem verifySignature_fails_closed (e : Engine) (r : JRecord)
    (sig : B64) (pk : Option Pem)
    (h : parsePublicKeyPem (pk.getD e.publicKeyPem) = none ∨
      decode64 sig = none) :
    (verifySignature e r sig pk).isValid = false ∧
      ((verifySignature e r sig pk).error).isSome := by
  rcases h with h | h
  · simp [verifySignature, h]
  · cases hp : parsePublicKeyPem (pk.getD e.publicKeyPem) with
    | none => simp [verifySignature, hp]
    | some k => simp [verifySignature, hp, h]

/-- Witness for `verifySignature_fails_closed`: a malformed PEM key and a
malformed base64 signature each yield `isValid = false` with an error
message. -/
theorem verifySignature_fails_closed_witness :
    (parsePublicKeyPem ((some (Pem.malformed "nokey")).getD
        (Engine.publicKeyPem ⟨0⟩)) = none ∨
      decode64 (B64.valid [1]) = none) ∧
    (verifySignature ⟨0⟩ [] (B64.valid [1])
        (some (Pem.malformed "nokey"))).isValid = false ∧
      ((verifySignature ⟨0⟩ [] (B64.valid [1])
        (some (Pem.malformed "nokey"))).error).isSome :=
  ⟨Or.inl rfl, verifySignature_fails_closed ⟨0⟩ [] (B64.valid [1])
    (some (Pem.malformed "nokey")) (Or.inl rfl)⟩

/-- C10: when `publicKey` is null or omitted, `verifySignature` does not
fail closed: it silently substitutes the engine's own public key, so a
caller that omits the approver's key obtains `isValid = true` for a
system-signed record. -/
theorem verifySignature_defaults_to_engine_key (e : Engine) (r : JRecord)
    (sig : B64) (info : SignerInfo) :
    verifySignature e r sig none =
        verifySignature e r sig (some e.publicKeyPem) ∧
      (verifySignature e r (signRecord e r info).signature none).isValid =
        true := by
  refine ⟨rfl, ?_⟩
  simp [verifySignature, signRecord, parsePublicKeyPem, decode64, rsaVerify,
    Engine.publicKeyPem]

/-! ## Signing round-trip (claim C5) -/

theorem char_toNat_inj {c1 c2 : Char} (h : c1.toNat = c2.toNat) : c1 = c2 := by
  rw [← Char.ofNat_toNat c1, ← Char.ofNat_toNat c2, h]

theorem string_data_inj {s t : String} (h : s.data = t.data) : s = t := by
  cases s; cases t; exact congrArg String.mk h

theorem sha256Hex_inj {s t : String} (h : sha256Hex s = sha256Hex t) : s = t := by
  unfold sha256Hex at h
  have hd : ("sha256:" ++ s).data = ("sha256:" ++ t).data := by rw [h]
  simp only [String.data_append] at hd
  exact string_data_inj (List.append_cancel_left hd)

theorem rsaSign_inj_digest {i : Nat} {d1 d2 : String}
    (h : rsaSign i d1 = rsaSign i d2) : d1 = d2 := by
  unfold rsaSign at h
  have hm : d1.data.map Char.toNat = d2.data.map Char.toNat :=
    (List.cons.injEq _ _ _ _ ▸ h).2
  exact string_data_inj
    ((List.map_injective_iff.mpr (fun _ _ => char_toNat_inj)) hm)

/-- C5: a signature produced by `signRecord` verifies `isValid = true`
against the same record and the engine's public key; flipping one byte of
the signature, substituting a different public key, or changing the record
so that its hash changes each independently force `isValid = false`. -/
theorem sign_then_verify (e : Engine) (r r2 : JRecord) (info : SignerInfo) :
    ((verifySignature e r (signRecord e r info).signature
        (some (signRecord e r info).publicKey)).isValid = true) ∧
    (∀ (i : Nat) (h : i < (rsaSign e.keyId (generateHash r)).length) (b : Nat),
        b ≠ (rsaSign e.keyId (generateHash r)).get ⟨i, h⟩ →
        (verifySignature e r
          (B64.valid ((rsaSign e.keyId (generateHash r)).set i b))
          (some (signRecord e r info).publicKey)).isValid = false) ∧
    (∀ j : Nat, j ≠ e.keyId →
        (verifySignature e r (signRecord e r info).signature
          (some (Pem.valid j))).isValid = false) ∧
    (generateHash r2 ≠ generateHash r →
        (verifySignature e r2 (signRecord e r info).signature
          (some (signRecord e r info).publicKey)).isValid = false) := by
  refine ⟨?_, ?_, ?_, ?_⟩
  · simp [verifySignature, signRecord, parsePublicKeyPem, decode64, rsaVerify,
      Engine.publicKeyPem]
  · intro i h b hb
    simp only [verifySignature, signRecord, Engine.publicKeyPem,
      parsePublicKeyPem, decode64, rsaVerify, Option.getD_some]
    rw [beq_eq_false_iff_ne]
    intro heq
    apply hb
    have hq := congrArg (fun t : List Nat => t[i]?) heq
    rw [show sha256Hex (createCanonicalJson r) = generateHash r from rfl] at hq
    simp only [List.getElem?_set_self, h, reduceIte,
      List.getElem?_eq_getElem h, Option.some.injEq] at hq
    simpa using hq
  · intro j hj
    simp only [verifySignature, signRecord, Engine.publicKeyPem,
      parsePublicKeyPem, decode64, rsaVerify, Option.getD_some]
    rw [beq_eq_false_iff_ne]
    intro heq
    simp only [rsaSign, List.cons.injEq] at heq
    exact hj heq.1.symm
  · intro hne
    simp only [verifySignature, signRecord, Engine.publicKeyPem,
      parsePublicKeyPem, decode64, rsaVerify, Option.getD_some]
    rw [beq_eq_false_iff_ne]
    intro heq
    exact hne (rsaSign_inj_digest heq).symm

/-- Witness for `sign_then_verify` at a concrete record, flipped byte,
foreign key and modified record. -/
theorem sign_then_verify_witness :
    ((verifySignature ⟨0⟩ [("a", JValue.str "x")]
        (signRecord ⟨0⟩ [("a", JValue.str "x")] {}).signature
        (some (signRecord ⟨0⟩ [("a", JValue.str "x")] {}).publicKey)).isValid =
      true) ∧
    ((verifySignature ⟨0⟩ [("a", JValue.str "x")]
        (B64.valid ((rsaSign 0 (generateHash [("a", JValue.str "x")])).set 0 99))
        (some (signRecord ⟨0⟩ [("a", JValue.str "x")] {}).publicKey)).isValid =
      false) ∧
    ((verifySignature ⟨0⟩ [("a", JValue.str "x")]
        (signRecord ⟨0⟩ [("a", JValue.str "x")] {}).signature
        (some (Pem.valid 1))).isValid = false) ∧
    ((verifySignature ⟨0⟩ [("a", JValue.str "y")]
        (signRecord ⟨0⟩ [("a", JValue.str "x")] {}).signature
        (some (signRecord ⟨0⟩ [("a", JValue.str "x")] {}).publicKey)).isValid =
      false) := by
  obtain ⟨h1, h2, h3, h4⟩ :=
    sign_then_verify ⟨0⟩ [("a", JValue.str "x")] [("a", JValue.str "y")] {}
  exact ⟨h1, h2 0 (by decide) 99 (by decide), h3 1 (by decide), h4 (by decide)⟩

/-! ## Batch verification (claim C7) -/

/-- C7 counterexample: a batch of zero items is rejected with an error
response before any processing, rather than answered with zero results,
so "returns exactly N results for every N at most 50" fails at N = 0. -/
theorem batchVerify_rejects_empty :
    batchVerify ⟨0⟩ (fun _ _ => none) [] =
      Except.error "Records array is required" := rfl

/-- C7 as amended: for every non-empty batch of at most 50 items the
route returns exactly one result per item, each item's result being
exactly what the single-record flow produces for it alone; an item whose
record does not exist gets its own `status = error` result; a batch of
more than 50 items is rejected before any item is processed. -/
theorem batchVerify_amended (e : Engine) (db : Db) (records : List BatchItem) :
    (records ≠ [] → records.length ≤ 50 →
      batchVerify e db records = Except.ok (records.map (fun item =>
        itemResult item (singleVerify e db item.recordType item.recordId)))) ∧
    (records ≠ [] → records.length ≤ 50 →
      ∀ rs, batchVerify e db records = Except.ok rs →
        rs.length = records.length) ∧
    (∀ item : BatchItem, validTypes.contains item.recordType →
      db item.recordType item.recordId = none →
      itemResult item (singleVerify e db item.recordType item.recordId) =
        { recordId := item.recordId, recordType := item.recordType
          status := BatchStatus.error, verified := false
          error := some "Record not found" : BatchResult }) ∧
    (records.length > 50 →
      batchVerify e db records =
        Except.error "Maximum 50 records allowed per batch") := by
  refine ⟨?_, ?_, ?_, ?_⟩
  · intro hne hle
    have h0 : records.length ≠ 0 := by
      simpa [List.length_eq_zero] using hne
    simp [batchVerify, h0, Nat.not_lt.mpr hle]
  · intro hne hle rs hok
    have h0 : records.length ≠ 0 := by
      simpa [List.length_eq_zero] using hne
    simp [batchVerify, h0, Nat.not_lt.mpr hle] at hok
    simp [← hok]
  · intro item hvt hdb
    have hmem : item.recordType ∈ validTypes := by simpa using hvt
    simp [singleVerify, hmem, hdb, itemResult]
  · intro hgt
    have h0 : records.length ≠ 0 := by omega
    simp [batchVerify, h0, hgt]

/-- Witness for `batchVerify_amended`: a singleton batch whose record is
missing yields one `error` result; a 51-item batch is rejected. -/
theorem batchVerify_amended_witness :
    batchVerify ⟨0⟩ (fun _ _ => none) [⟨"budget", "b1"⟩] =
        Except.ok [{ recordId := "b1", recordType := "budget"
                     status := BatchStatus.error, verified := false
                     error := some "Record not found" : BatchResult }] ∧
      batchVerify ⟨0⟩ (fun _ _ => none)
          (List.replicate 51 ⟨"budget", "b1"⟩) =
        Except.error "Maximum 50 records allowed per batch" := by
  obtain ⟨h1, -, h3, -⟩ :=
    batchVerify_amended ⟨0⟩ (fun _ _ => none) [⟨"budget", "b1"⟩]
  obtain ⟨-, -, -, h4⟩ :=
    batchVerify_amended ⟨0⟩ (fun _ _ => none)
      (List.replicate 51 ⟨"budget", "b1"⟩)
  refine ⟨?_, h4 (by decide)⟩
  rw [h1 (by decide) (by decide)]
  rw [List.map_singleton, h3 ⟨"budget", "b1"⟩ (by decide) rfl]

/-! ## Certificate issuance (claim C8) -/

/-- `Array.find` by approver name returns the verification of the first
row bearing that name; with pairwise distinct approver names that is each
row's own verification. -/
theorem find?_mkSigVerification (e : Engine) (r : JRecord) :
    ∀ (sigs : List SigRow), (sigs.map SigRow.approver_name).Nodup →
      ∀ s ∈ sigs,
        (sigs.map (mkSigVerification e r)).find?
            (fun sv => sv.signerName = s.approver_name) =
          some (mkSigVerification e r s) := by
  intro sigs
  induction sigs with
  | nil => intro _ s hs; simp at hs
  | cons s0 rest ih =>
    intro hnd s hs
    rcases List.mem_cons.mp hs with h | h
    · subst h
      simp [mkSigVerification, List.find?_cons_of_pos]
    · have hnd2 : (s0.approver_name :: rest.map SigRow.approver_name).Nodup := by
        simpa using hnd
      have hne : s0.approver_name ≠ s.approver_name := by
        intro hcontra
        exact (List.nodup_cons.mp hnd2).1
          (hcontra ▸ List.mem_map_of_mem SigRow.approver_name h)
      rw [List.map_cons, List.find?_cons_of_neg, ih (List.nodup_cons.mp hnd2).2 s h]
      simp [mkSigVerification, hne]

/-- C8 as amended: the issued certificate reproduces exactly the stored
hash, the computed hash and the hash-match flag of its source
verification result; per-signer validity is the validity of the first
signature verification whose signer name matches the approval's approver
name, which coincides with each approval's own validity whenever approver
names are pairwise distinct (but not necessarily when two approvals share
a name). -/
theorem issueCertificate_fidelity (e : Engine) (r : JRecord)
    (storedHash : String) (sigs : List SigRow) :
    (issueCertificate (mkReport e r storedHash sigs)).integrity.originalHash =
        (completeVerification e r storedHash sigs).hashVerification.storedHash ∧
    (issueCertificate (mkReport e r storedHash sigs)).integrity.computedHash =
        (completeVerification e r storedHash sigs).hashVerification.computedHash ∧
    (issueCertificate (mkReport e r storedHash sigs)).integrity.hashMatch =
        (completeVerification e r storedHash sigs).hashVerification.isValid ∧
    (issueCertificate (mkReport e r storedHash sigs)).integrity.hashVerified =
        (completeVerification e r storedHash sigs).hashVerification.isValid ∧
    ((sigs.map SigRow.approver_name).Nodup →
      (issueCertificate (mkReport e r storedHash sigs)).authenticity.signers.map
          CertSigner.valid =
        (completeVerification e r storedHash sigs).signatureVerifications.map
          SigVerification.isValid) := by
  refine ⟨rfl, rfl, rfl, rfl, ?_⟩
  intro hnd
  show ((mkApprovalViews (sigs.map (mkSigVerification e r)) sigs).map
      (fun a => ({ name := a.name, role := a.role, signedAt := a.signedAt
                   valid := a.hasValidSignature } : CertSigner))).map CertSigner.valid =
    (sigs.map (mkSigVerification e r)).map (fun sv => sv.isValid)
  rw [List.map_map, mkApprovalViews, List.map_map, List.map_map]
  refine List.map_congr_left ?_
  intro s hs
  simp only [Function.comp]
  rw [find?_mkSigVerification e r sigs hnd s hs]
  rfl

/-- C8 counterexample: two approvals both named "Alice", the first valid
and the second invalid; the certificate reports both signers as valid,
while the source verification result holds validities [true, false] -
value drift through issuance. -/
theorem issueCertificate_duplicate_name_drift :
    (issueCertificate (mkReport ⟨0⟩ sampleRecord (generateHash sampleRecord)
        [sampleGoodSig, sampleBadSig])).authenticity.signers.map
          CertSigner.valid = [true, true] ∧
    (completeVerification ⟨0⟩ sampleRecord (generateHash sampleRecord)
        [sampleGoodSig, sampleBadSig]).signatureVerifications.map
          SigVerification.isValid = [true, false] ∧
    (issueCertificate (mkReport ⟨0⟩ sampleRecord (generateHash sampleRecord)
        [sampleGoodSig, sampleBadSig])).authenticity.signers.map
          CertSigner.valid ≠
      (completeVerification ⟨0⟩ sampleRecord (generateHash sampleRecord)
        [sampleGoodSig, sampleBadSig]).signatureVerifications.map
          SigVerification.isValid := by
  refine ⟨by decide, by decide, by decide⟩

/-- Witness for `issueCertificate_fidelity`: with a single approval the
approver names are trivially distinct and the certificate's per-signer
validity equals the source verification's. -/
theorem issueCertificate_fidelity_witness :
    (([sampleGoodSig] : List SigRow).map SigRow.approver_name).Nodup ∧
    (issueCertificate (mkReport ⟨0⟩ sampleRecord (generateHash sampleRecord)
        [sampleGoodSig])).authenticity.signers.map CertSigner.valid =
      (completeVerification ⟨0⟩ sampleRecord (generateHash sampleRecord)
        [sampleGoodSig]).signatureVerifications.map SigVerification.isValid :=
  ⟨by decide,
    (issueCertificate_fidelity ⟨0⟩ sampleRecord (generateHash sampleRecord)
      [sampleGoodSig]).2.2.2.2 (by decide)⟩

/-! ## Canonicalization: order independence (claim C3) -/

instance : IsTotal String strLe := ⟨fun a b => le_total a.data b.data⟩

instance : IsTrans String strLe := ⟨fun _ _ _ => le_trans⟩

instance : IsAntisymm String strLe :=
  ⟨fun _ _ h1 h2 => string_data_inj (le_antisymm h1 h2)⟩

theorem lookupField_perm {r1 r2 : JRecord} (h : r1.Perm r2)
    (hnd : (recKeys r1).Nodup) : ∀ k, lookupField r1 k = lookupField r2 k := by
  induction h with
  | nil => intro k; rfl
  | cons x t ih =>
    intro k
    obtain ⟨kx, vx⟩ := x
    have hnd' : (recKeys _).Nodup :=
      (List.nodup_cons.mp (show (kx :: recKeys _).Nodup from hnd)).2
    simp only [lookupField]
    by_cases hk : kx = k
    · simp [hk]
    · simp only [hk, if_false]
      exact ih hnd' k
  | swap x y l =>
    intro k
    obtain ⟨kx, vx⟩ := x
    obtain ⟨ky, vy⟩ := y
    have hxy : ky ≠ kx := by
      have h1 :=
        (List.nodup_cons.mp (show (ky :: kx :: recKeys l).Nodup from hnd)).1
      intro hc
      exact h1 (by simp [hc])
    simp only [lookupField]
    by_cases h1 : ky = k
    · subst h1
      simp [hxy.symm]
    · simp [h1]
  | trans h12 h23 ih12 ih23 =>
    intro k
    have hnd2 : (recKeys _).Nodup :=
      ((h12.map Prod.fst).nodup_iff).mp hnd
    exact (ih12 hnd k).trans (ih23 hnd2 k)

theorem sortedKeys_perm {r1 r2 : JRecord} (h : r1.Perm r2) :
    sortedKeys r1 = sortedKeys r2 := by
  apply List.eq_of_perm_of_sorted
    (((List.perm_insertionSort strLe _).trans
      ((h.map Prod.fst).filter _)).trans (List.perm_insertionSort strLe _).symm)
    (List.sorted_insertionSort strLe _) (List.sorted_insertionSort strLe _)

theorem cleanRecord_perm {r1 r2 : JRecord} (h : r1.Perm r2)
    (hnd : (recKeys r1).Nodup) : cleanRecord r1 = cleanRecord r2 := by
  unfold cleanRecord
  rw [sortedKeys_perm h]
  have hl := lookupField_perm h hnd
  simp only [hl]

/-- C3: for every two field maps containing identical (key, value) sets
but with the keys supplied in different insertion orders,
`createCanonicalJson` produces identical canonical strings and
`generateHash` produces identical digests. -/
theorem canonicalJson_order_independent (r1 r2 : JRecord) (h : r1.Perm r2)
    (hnd : (recKeys r1).Nodup) :
    createCanonicalJson r1 = createCanonicalJson r2 ∧
      generateHash r1 = generateHash r2 := by
  have hc : cleanRecord r1 = cleanRecord r2 := cleanRecord_perm h hnd
  refine ⟨?_, ?_⟩
  · unfold createCanonicalJson
    rw [hc]
  · unfold generateHash createCanonicalJson
    rw [hc]

/-- Witness for `canonicalJson_order_independent`: the same two fields in
both insertion orders. -/
theorem canonicalJson_order_independent_witness :
    ([("year", JValue.num 2024), ("department", JValue.str "Education")].Perm
      [("department", JValue.str "Education"), ("year", JValue.num 2024)]) ∧
    createCanonicalJson
        [("year", JValue.num 2024), ("department", JValue.str "Education")] =
      createCanonicalJson
        [("department", JValue.str "Education"), ("year", JValue.num 2024)] ∧
    generateHash
        [("year", JValue.num 2024), ("department", JValue.str "Education")] =
      generateHash
        [("department", JValue.str "Education"), ("year", JValue.num 2024)] := by
  have h := canonicalJson_order_independent
    [("year", JValue.num 2024), ("department", JValue.str "Education")]
    [("department", JValue.str "Education"), ("year", JValue.num 2024)]
    (by decide) (by decide)
  exact ⟨by decide, h.1, h.2⟩

/-! ## Canonicalization: injectivity of the serialization (claim C4) -/

theorem natCharsF_congr : ∀ (fuel1 : Nat) (fuel2 n : Nat), n < fuel1 →
    n < fuel2 → natCharsF fuel1 n = natCharsF fuel2 n := by
  intro fuel1
  induction fuel1 with
  | zero => intro fuel2 n h1 _; omega
  | succ f ih =>
    intro fuel2 n h1 h2
    cases fuel2 with
    | zero => omega
    | succ g =>
      by_cases h : n < 10
      · simp [natCharsF, h]
      · simp only [natCharsF, h, if_false]
        rw [ih g (n / 10) (by omega) (by omega)]

theorem natChars_eq (n : Nat) :
    natChars n = if n < 10 then [digitChar n]
      else natChars (n / 10) ++ [digitChar (n % 10)] := by
  show natCharsF (n + 1) n = _
  by_cases h : n < 10
  · simp [natCharsF, h]
  · simp only [natCharsF, h, if_false]
    rw [natCharsF_congr n (n / 10 + 1) (n / 10) (by omega) (by omega)]
    rfl

theorem parseStr_escape : ∀ (cs rest : List Char),
    parseStr (escapeChars cs ++ '"' :: rest) = some (cs, rest) := by
  intro cs
  induction cs with
  | nil =>
    intro rest
    rw [show escapeChars [] = [] from rfl, List.nil_append, parseStr.eq_def]
    simp
  | cons c cs ih =>
    intro rest
    have hstep : escapeChars (c :: cs) = escChar c ++ escapeChars cs := by
      simp [escapeChars]
    rw [hstep, List.append_assoc]
    by_cases h1 : c = '"'
    · subst h1
      rw [show escChar '"' = ['\\', '"'] from rfl, List.cons_append,
        List.cons_append, parseStr.eq_def]
      simp [unescChar, ih]
    · by_cases h2 : c = '\\'
      · subst h2
        rw [show escChar '\\' = ['\\', '\\'] from rfl, List.cons_append,
          List.cons_append, parseStr.eq_def]
        simp [unescChar, ih]
      · by_cases h3 : c = '\n'
        · subst h3
          rw [show escChar '\n' = ['\\', 'n'] from rfl, List.cons_append,
            List.cons_append, parseStr.eq_def]
          simp [unescChar, ih]
        · by_cases h4 : c = '\t'
          · subst h4
            rw [show escChar '\t' = ['\\', 't'] from rfl, List.cons_append,
              List.cons_append, parseStr.eq_def]
            simp [unescChar, ih]
          · by_cases h5 : c = '\r'
            · subst h5
              rw [show escChar '\r' = ['\\', 'r'] from rfl, List.cons_append,
                List.cons_append, parseStr.eq_def]
              simp [unescChar, ih]
            · rw [show escChar c = [c] from by simp [escChar, h1, h2, h3, h4, h5],
                List.cons_append, List.nil_append, parseStr.eq_def]
              simp [h1, h2, ih]

theorem digitVal_digitChar {d : Nat} (h : d < 10) :
    digitVal (digitChar d) = some d := by
  interval_cases d <;> decide

theorem natChars_head (n : Nat) :
    ∃ d t, d < 10 ∧ natChars n = digitChar d :: t := by
  induction n using Nat.strong_induction_on with
  | _ n ih =>
    by_cases h : n < 10
    · exact ⟨n, [], h, by rw [natChars_eq]; simp [h]⟩
    · obtain ⟨d, t, hd, ht⟩ := ih (n / 10) (Nat.div_lt_self (by omega) (by omega))
      refine ⟨d, t ++ [digitChar (n % 10)], hd, ?_⟩
      rw [natChars_eq]
      simp [h, ht]

theorem parseNatAux_stop {rest : List Char} (h : noDigitHead rest) (acc : Nat) :
    parseNatAux rest acc = (acc, rest) := by
  cases rest with
  | nil => rfl
  | cons c t =>
    have hc : digitVal c = none := h
    simp [parseNatAux, hc]

theorem parseNatAux_append (n : Nat) : ∀ (acc : Nat) (rest : List Char),
    parseNatAux (natChars n ++ rest) acc =
      parseNatAux rest (acc * 10 ^ (natChars n).length + n) := by
  induction n using Nat.strong_induction_on with
  | _ n ih =>
    intro acc rest
    by_cases h : n < 10
    · rw [natChars_eq]
      simp [h, parseNatAux, digitVal_digitChar h]
    · rw [natChars_eq]
      simp only [h, if_false, List.append_assoc, List.cons_append,
        List.nil_append]
      rw [ih (n / 10) (Nat.div_lt_self (by omega) (by omega))]
      have hm : n % 10 < 10 := Nat.mod_lt n (by omega)
      simp only [parseNatAux, digitVal_digitChar hm, List.length_append,
        List.length_cons, List.length_nil]
      congr 1
      have hdm := Nat.div_add_mod n 10
      calc (acc * 10 ^ (natChars (n / 10)).length + n / 10) * 10 + n % 10
          = acc * (10 ^ (natChars (n / 10)).length * 10) +
              (10 * (n / 10) + n % 10) := by ring
        _ = acc * 10 ^ ((natChars (n / 10)).length + (0 + 1)) + n := by
              rw [hdm]; ring

theorem parseNat_natChars (n : Nat) {rest : List Char} (h : noDigitHead rest) :
    parseNat (natChars n ++ rest) = some (n, rest) := by
  obtain ⟨d, t, hd, ht⟩ := natChars_head n
  have key := parseNatAux_append n 0 rest
  rw [parseNatAux_stop h] at key
  simp only [Nat.zero_mul, Nat.zero_add] at key
  rw [ht] at key ⊢
  rw [List.cons_append] at key ⊢
  rw [parseNat.eq_def]
  simp only [digitVal_digitChar hd]
  have hstep : parseNatAux (digitChar d :: (t ++ rest)) 0 =
      parseNatAux (t ++ rest) d := by
    simp [parseNatAux, digitVal_digitChar hd]
  rw [hstep] at key
  rw [key]

theorem digitVal_ne_quote {c : Char} {d : Nat} (h : digitVal c = some d) :
    c ≠ '"' ∧ c ≠ '-' ∧ c ≠ 't' ∧ c ≠ 'f' := by
  refine ⟨?_, ?_, ?_, ?_⟩ <;> intro hc <;> subst hc <;>
    rw [show digitVal _ = none from by decide] at h <;> cases h

theorem string_mk_data (s : String) : String.mk s.data = s := by
  cases s; rfl

theorem parseJValue_ser {v : JValue} (hv : v.isData = true) :
    ∀ {rest : List Char}, noDigitHead rest →
      parseJValue (serJValue v ++ rest) = some (v, rest) := by
  cases v with
  | str s =>
    intro rest hrest
    show parseJValue (serString s.data ++ rest) = _
    rw [show serString s.data ++ rest =
      '"' :: (escapeChars s.data ++ '"' :: rest) from by
        simp [serString]]
    rw [parseJValue.eq_def]
    simp [parseStr_escape, string_mk_data]
  | num n =>
    intro rest hrest
    show parseJValue (serInt n ++ rest) = _
    by_cases hn : n < 0
    · rw [show serInt n = '-' :: natChars n.natAbs from by simp [serInt, hn]]
      rw [List.cons_append, parseJValue.eq_def]
      simp only [reduceIte, Char.reduceEq]
      rw [parseNat_natChars n.natAbs hrest]
      have hna : -(n.natAbs : Int) = n := by omega
      simp only []
      rw [hna]
    · rw [show serInt n = natChars n.toNat from by simp [serInt, hn]]
      obtain ⟨d, t, hd, ht⟩ := natChars_head n.toNat
      have hne := digitVal_ne_quote (digitVal_digitChar hd)
      rw [ht, List.cons_append, parseJValue.eq_def]
      simp only [hne.1, hne.2.1, hne.2.2.1, hne.2.2.2, if_false]
      rw [← List.cons_append, ← ht, parseNat_natChars n.toNat hrest]
      have : (n.toNat : Int) = n := Int.toNat_of_nonneg (by omega)
      simp [this]
  | bool b =>
    intro rest hrest
    cases b <;> (rw [parseJValue.eq_def]; simp [serJValue])
  | null => intro rest _; simp [JValue.isData] at hv
  | undef => intro rest _; simp [JValue.isData] at hv
  | func i => intro rest _; simp [JValue.isData] at hv
  | blob bs => intro rest _; simp [JValue.isData] at hv

theorem parseEntry_ser {k : String} {v : JValue} (hv : v.isData = true)
    {rest : List Char} (hrest : noDigitHead rest) :
    parseEntry (serEntry (k, v) ++ rest) = some ((k, v), rest) := by
  rw [show serEntry (k, v) ++ rest =
    '"' :: (escapeChars k.data ++ '"' :: (':' :: (serJValue v ++ rest))) from by
      simp [serEntry, serString]]
  rw [parseEntry.eq_def]
  simp only [parseStr_escape]
  rw [parseJValue_ser hv hrest]

theorem parseEntriesF_ser : ∀ (es : JRecord) (fuel : Nat),
    (∀ p ∈ es, p.2.isData = true) → es.length ≤ fuel →
    parseEntriesF fuel (serEntries es) = some es := by
  intro es
  induction es with
  | nil =>
    intro fuel _ _
    rw [show serEntries [] = [] from rfl]
    cases fuel <;> rfl
  | cons e tail ih =>
    intro fuel hdata hlen
    cases fuel with
    | zero => simp at hlen
    | succ fuel =>
      obtain ⟨k, v⟩ := e
      have hv : v.isData = true := hdata (k, v) (List.mem_cons_self _ _)
      cases tail with
      | nil =>
        rw [show serEntries [(k, v)] = serEntry (k, v) from by
          simp [serEntries, joinComma]]
        have hp := @parseEntry_ser k v hv [] trivial
        rw [List.append_nil] at hp
        rw [show serEntry (k, v) =
          '"' :: (escapeChars k.data ++ '"' :: (':' :: serJValue v)) from by
            simp [serEntry, serString]] at hp ⊢
        rw [parseEntriesF.eq_def]
        simp only [hp]
      | cons e2 tail2 =>
        have hse : serEntries ((k, v) :: e2 :: tail2) =
            serEntry (k, v) ++ ',' :: serEntries (e2 :: tail2) := by
          simp [serEntries, joinComma]
        have hrest : noDigitHead (',' :: serEntries (e2 :: tail2)) := by
          show digitVal ',' = none
          decide
        have hp := @parseEntry_ser k v hv (',' :: serEntries (e2 :: tail2)) hrest
        have htail := ih fuel (fun p hp => hdata p (List.mem_cons_of_mem _ hp))
          (by simp only [List.length_cons] at hlen ⊢; omega)
        rw [hse]
        rw [show serEntry (k, v) ++ ',' :: serEntries (e2 :: tail2) =
          '"' :: (escapeChars k.data ++ '"' :: (':' ::
            (serJValue v ++ ',' :: serEntries (e2 :: tail2)))) from by
            simp [serEntry, serString]]
        rw [show serEntry (k, v) ++ ',' :: serEntries (e2 :: tail2) =
          '"' :: (escapeChars k.data ++ '"' :: (':' ::
            (serJValue v ++ ',' :: serEntries (e2 :: tail2)))) from by
            simp [serEntry, serString]] at hp
        rw [parseEntriesF.eq_def]
        simp only [hp, htail]
        rfl

theorem serEntries_inj {es1 es2 : JRecord}
    (h1 : ∀ p ∈ es1, p.2.isData = true) (h2 : ∀ p ∈ es2, p.2.isData = true)
    (heq : serEntries es1 = serEntries es2) : es1 = es2 := by
  have k1 := parseEntriesF_ser es1 (es1.length + es2.length) h1 (by omega)
  have k2 := parseEntriesF_ser es2 (es1.length + es2.length) h2 (by omega)
  rw [heq] at k1
  rw [k1] at k2
  exact Option.some.inj k2

theorem lookupField_some_mem {r : JRecord} {k : String} {v : JValue}
    (h : lookupField r k = some v) : (k, v) ∈ r := by
  induction r with
  | nil => simp [lookupField] at h
  | cons p t ih =>
    obtain ⟨k', w⟩ := p
    by_cases hk : k' = k
    · subst hk
      simp [lookupField] at h
      simp [h]
    · simp only [lookupField, hk, if_false] at h
      exact List.mem_cons_of_mem _ (ih h)

theorem mem_cleanRecord {r : JRecord} {k : String} {v : JValue} :
    (k, v) ∈ cleanRecord r ↔
      (k ∉ excludeFields ∧ lookupField r k = some v ∧ v.isPresent = true) := by
  constructor
  · intro h
    obtain ⟨k', hk', hf⟩ := List.mem_filterMap.mp h
    have hkS : k' ∈ ((recKeys r).filter
        (fun k => ¬ excludeFields.contains k)) :=
      ((List.perm_insertionSort strLe _).mem_iff).mp hk'
    have hpred := List.of_mem_filter hkS
    rcases hl : lookupField r k' with _ | w
    · rw [hl] at hf; cases hf
    · rw [hl] at hf
      by_cases hw : w.isPresent = true
      · simp only [hw, if_true] at hf
        obtain ⟨hk, hv⟩ := Prod.mk.injEq .. ▸ Option.some.inj hf
        subst hk
        subst hv
        refine ⟨?_, hl, hw⟩
        simpa using hpred
      · simp [hw] at hf
  · rintro ⟨hexcl, hl, hp⟩
    refine List.mem_filterMap.mpr ⟨k, ?_, by simp [hl, hp]⟩
    refine ((List.perm_insertionSort strLe _).mem_iff).mpr ?_
    refine List.mem_filter.mpr ⟨?_, by simpa using hexcl⟩
    have := lookupField_some_mem hl
    exact List.mem_map_of_mem Prod.fst this

theorem cleanRecord_values_data {r : JRecord}
    (hall : ∀ p ∈ r, p.2.isModel = true) :
    ∀ p ∈ cleanRecord r, p.2.isData = true := by
  rintro ⟨k, v⟩ hp
  obtain ⟨-, hl, hpres⟩ := mem_cleanRecord.mp hp
  have hm : v.isModel = true := hall (k, v) (lookupField_some_mem hl)
  cases v <;> simp_all [JValue.isModel, JValue.isPresent, JValue.isData]

theorem stringifyEntries_clean {r : JRecord}
    (hall : ∀ p ∈ r, p.2.isModel = true) :
    stringifyEntries (cleanRecord r) = cleanRecord r := by
  refine List.filter_eq_self.mpr ?_
  intro p hp
  have hd := cleanRecord_values_data hall p hp
  cases hv : p.2 <;> simp_all [JValue.isData, JValue.isFunc]

theorem createCanonicalJson_inj {r1 r2 : JRecord}
    (h1 : ∀ p ∈ r1, p.2.isModel = true) (h2 : ∀ p ∈ r2, p.2.isModel = true)
    (heq : createCanonicalJson r1 = createCanonicalJson r2) :
    cleanRecord r1 = cleanRecord r2 := by
  unfold createCanonicalJson at heq
  rw [stringifyEntries_clean h1, stringifyEntries_clean h2] at heq
  have hdata : ('{' :: serEntries (cleanRecord r1) ++ ['}']) =
      ('{' :: serEntries (cleanRecord r2) ++ ['}']) := congrArg String.data heq
  have hinner : serEntries (cleanRecord r1) = serEntries (cleanRecord r2) :=
    List.append_cancel_right (List.cons.injEq .. ▸ hdata).2
  exact serEntries_inj (cleanRecord_values_data h1) (cleanRecord_values_data h2)
    hinner

theorem lookupField_setField_self (r : JRecord) (k : String) (v : JValue) :
    lookupField (setField r k v) k = some v := by
  induction r with
  | nil => simp [setField, lookupField]
  | cons p t ih =>
    obtain ⟨k', w⟩ := p
    by_cases hk : k' = k
    · simp [setField, hk, lookupField]
    · simp [setField, hk, lookupField, ih]

theorem lookupField_setField_ne {r : JRecord} {k k' : String} (v : JValue)
    (h : k' ≠ k) : lookupField (setField r k v) k' = lookupField r k' := by
  induction r with
  | nil => simp [setField, lookupField, Ne.symm h]
  | cons p t ih =>
    obtain ⟨k0, w⟩ := p
    by_cases hk : k0 = k
    · subst hk
      simp [setField, lookupField, Ne.symm h, h]
    · simp [setField, hk, lookupField, ih]

theorem setField_values {r : JRecord} {k : String} {v : JValue} :
    ∀ p ∈ setField r k v, p = (k, v) ∨ p ∈ r := by
  induction r with
  | nil => intro p hp; simp [setField] at hp; simp [hp]
  | cons q t ih =>
    obtain ⟨k0, w⟩ := q
    intro p hp
    by_cases hk : k0 = k
    · simp only [setField, hk, if_true] at hp
      rcases List.mem_cons.mp hp with h | h
      · exact Or.inl h
      · exact Or.inr (List.mem_cons_of_mem _ h)
    · simp only [setField, hk, if_false] at hp
      rcases List.mem_cons.mp hp with h | h
      · exact Or.inr (by simp [h])
      · rcases ih p h with h2 | h2
        · exact Or.inl h2
        · exact Or.inr (List.mem_cons_of_mem _ h2)

theorem setField_values_model {r : JRecord} {k : String} {v : JValue}
    (hall : ∀ p ∈ r, p.2.isModel = true) (hv : v.isModel = true) :
    ∀ p ∈ setField r k v, p.2.isModel = true := by
  intro p hp
  rcases setField_values p hp with h | h
  · rw [h]; exact hv
  · exact hall p h

theorem filter_recKeys_setField {r : JRecord} {k : String} (v : JValue)
    (p : String → Bool) (hk : p k = false) :
    (recKeys (setField r k v)).filter p = (recKeys r).filter p := by
  induction r with
  | nil => simp [setField, recKeys, List.filter, hk]
  | cons q t ih =>
    obtain ⟨k0, w⟩ := q
    by_cases h0 : k0 = k
    · subst h0
      simp only [setField, if_true, recKeys, List.map_cons]
    · simp only [setField, h0, if_false, recKeys, List.map_cons,
        List.filter_cons]
      simp only [recKeys] at ih
      rw [ih]

theorem mem_sortedKeys_not_excluded {r : JRecord} {k : String}
    (h : k ∈ sortedKeys r) : k ∉ excludeFields := by
  have hf : k ∈ (recKeys r).filter (fun k => ¬ excludeFields.contains k) :=
    ((List.perm_insertionSort strLe _).mem_iff).mp h
  have := List.of_mem_filter hf
  simpa using this

theorem cleanRecord_setField_excluded {r : JRecord} {k : String} (v : JValue)
    (hk : k ∈ excludeFields) :
    cleanRecord (setField r k v) = cleanRecord r := by
  unfold cleanRecord
  have hkeys : sortedKeys (setField r k v) = sortedKeys r := by
    unfold sortedKeys
    rw [filter_recKeys_setField v _ (by simpa using hk)]
  rw [hkeys]
  refine List.filterMap_congr ?_
  intro k' hk'
  have hne : k' ≠ k := fun hc =>
    (mem_sortedKeys_not_excluded hk') (hc ▸ hk)
  rw [lookupField_setField_ne v hne]

/-- C4: changing any field outside the exclusion set (in a way that is
visible to canonicalization: the present value at that key actually
changes) changes the result of `generateHash`, while changing only a field
inside the exclusion set (for example a timestamp) leaves `generateHash`
unchanged; values range over the data model's kinds. -/
theorem generateHash_field_sensitivity (r : JRecord) (k : String) (v : JValue)
    (hall : ∀ p ∈ r, p.2.isModel = true) (hv : v.isModel = true) :
    (k ∉ excludeFields → presentValue v ≠ presentLookup r k →
      generateHash (setField r k v) ≠ generateHash r) ∧
    (k ∈ excludeFields →
      generateHash (setField r k v) = generateHash r) := by
  constructor
  · intro hexcl hch heq
    have hclean : cleanRecord (setField r k v) = cleanRecord r :=
      createCanonicalJson_inj (setField_values_model hall hv) hall
        (sha256Hex_inj heq)
    by_cases hvp : v.isPresent = true
    · have hmem : (k, v) ∈ cleanRecord (setField r k v) :=
        mem_cleanRecord.mpr ⟨hexcl, lookupField_setField_self r k v, hvp⟩
      rw [hclean] at hmem
      obtain ⟨-, hl, -⟩ := mem_cleanRecord.mp hmem
      exact hch (by simp [presentValue, presentLookup, hl, hvp])
    · have hpv : presentValue v = none := by simp [presentValue, hvp]
      rw [hpv] at hch
      rcases hplr : presentLookup r k with _ | w
      · exact hch hplr.symm
      · have hw : lookupField r k = some w ∧ w.isPresent = true := by
          unfold presentLookup at hplr
          rcases hl : lookupField r k with _ | u
          · rw [hl] at hplr; cases hplr
          · rw [hl, Option.some_bind] at hplr
            unfold presentValue at hplr
            by_cases hu : u.isPresent = true
            · rw [if_pos hu] at hplr
              have huw := Option.some.inj hplr
              subst huw
              exact ⟨rfl, hu⟩
            · rw [if_neg hu] at hplr; cases hplr
        have hmem : (k, w) ∈ cleanRecord r :=
          mem_cleanRecord.mpr ⟨hexcl, hw.1, hw.2⟩
        rw [← hclean] at hmem
        obtain ⟨-, hl2, -⟩ := mem_cleanRecord.mp hmem
        rw [lookupField_setField_self r k v] at hl2
        have : v = w := Option.some.inj hl2
        subst this
        exact hvp hw.2
  · intro hk
    unfold generateHash createCanonicalJson
    rw [cleanRecord_setField_excluded v hk]

/-- Witness for `generateHash_field_sensitivity`: changing `year` changes
the digest; changing `created_at` (excluded) does not. -/
theorem generateHash_field_sensitivity_witness :
    generateHash (setField
        [("department", JValue.str "Education"), ("year", JValue.num 2024),
          ("created_at", JValue.str "2024-01-01")] "year" (JValue.num 2025)) ≠
      generateHash
        [("department", JValue.str "Education"), ("year", JValue.num 2024),
          ("created_at", JValue.str "2024-01-01")] ∧
    generateHash (setField
        [("department", JValue.str "Education"), ("year", JValue.num 2024),
          ("created_at", JValue.str "2024-01-01")] "created_at"
        (JValue.str "2030-12-31")) =
      generateHash
        [("department", JValue.str "Education"), ("year", JValue.num 2024),
          ("created_at", JValue.str "2024-01-01")] := by
  refine ⟨?_, ?_⟩
  · exact (generateHash_field_sensitivity
      [("department", JValue.str "Education"), ("year", JValue.num 2024),
        ("created_at", JValue.str "2024-01-01")] "year" (JValue.num 2025)
      (by decide) (by decide)).1 (by decide) (by decide)
  · exact (generateHash_field_sensitivity
      [("department", JValue.str "Education"), ("year", JValue.num 2024),
        ("created_at", JValue.str "2024-01-01")] "created_at"
      (JValue.str "2030-12-31") (by decide) (by decide)).2 (by decide)

/-! ## Canonicalization of unsupported value kinds (claim C9) -/

theorem lookup_none_not_mem_keys {r : JRecord} {k : String}
    (h : lookupField r k = none) : k ∉ recKeys r := by
  induction r with
  | nil => simp [recKeys]
  | cons p t ih =>
    obtain ⟨k0, w⟩ := p
    by_cases hk : k0 = k
    · simp [lookupField, hk] at h
    · simp only [lookupField, hk, if_false] at h
      intro hmem
      rcases List.mem_cons.mp hmem with hc | hc
      · exact hk hc.symm
      · exact ih h hc

theorem recKeys_setField_fresh {r : JRecord} {k : String} (v : JValue)
    (h : lookupField r k = none) :
    recKeys (setField r k v) = recKeys r ++ [k] := by
  induction r with
  | nil => rfl
  | cons p t ih =>
    obtain ⟨k0, w⟩ := p
    by_cases hk : k0 = k
    · simp [lookupField, hk] at h
    · simp only [lookupField, hk, if_false] at h
      simp [setField, hk, recKeys] at ih ⊢
      exact ih h

theorem sortedKeys_setField_fresh {r : JRecord} {k : String} (v : JValue)
    (hfresh : lookupField r k = none) (hexcl : k ∉ excludeFields) :
    sortedKeys (setField r k v) =
      List.orderedInsert strLe k (sortedKeys r) := by
  unfold sortedKeys
  rw [recKeys_setField_fresh v hfresh, List.filter_append]
  rw [show ([k].filter (fun k => ¬ excludeFields.contains k)) = [k] from by
    simp [hexcl]]
  have hperm : List.Perm
      ((((recKeys r).filter (fun k => ¬ excludeFields.contains k)) ++
        [k]).insertionSort strLe)
      (List.orderedInsert strLe k (((recKeys r).filter
        (fun k => ¬ excludeFields.contains k)).insertionSort strLe)) :=
    ((List.perm_insertionSort strLe _).trans
      ((List.perm_append_singleton _ _).trans
        ((List.perm_insertionSort strLe _).symm.cons k))).trans
      (List.perm_orderedInsert strLe k _).symm
  exact List.eq_of_perm_of_sorted hperm
    (List.sorted_insertionSort strLe _)
    (List.Sorted.orderedInsert k _ (List.sorted_insertionSort strLe _))

theorem filterMap_orderedInsert_none {β : Type} (g : String → Option β)
    (k : String) (hk : g k = none) (S : List String) :
    (List.orderedInsert strLe k S).filterMap g = S.filterMap g := by
  induction S with
  | nil => simp [List.orderedInsert, hk]
  | cons a t ih =>
    by_cases hle : strLe k a
    · simp [List.orderedInsert, hle, List.filterMap_cons, hk]
    · simp only [List.orderedInsert, hle, if_false, List.filterMap_cons]
      cases g a <;> simp [ih]

theorem mem_recKeys_of_mem_sortedKeys {r : JRecord} {k : String}
    (h : k ∈ sortedKeys r) : k ∈ recKeys r := by
  have hf : k ∈ (recKeys r).filter (fun k => ¬ excludeFields.contains k) :=
    ((List.perm_insertionSort strLe _).mem_iff).mp h
  exact List.mem_of_mem_filter hf

/-- C9 counterexample: a record with a callable-valued field
canonicalizes without any error to a string that silently omits that
field (the repository defines no CanonicalizationError at all). -/
theorem createCanonicalJson_callable_no_error :
    createCanonicalJson
        [("amount", JValue.func 7), ("department", JValue.str "Education")] =
      "\x7b\"department\":\"Education\"\x7d" ∧
    createCanonicalJson
        [("amount", JValue.func 7), ("department", JValue.str "Education")] =
      createCanonicalJson [("department", JValue.str "Education")] := by
  exact ⟨by decide, by decide⟩

/-- C9 as amended: canonicalization never fails on unsupported value
kinds: adding a callable-valued field to a record leaves the canonical
string unchanged (the field is silently omitted), and a binary buffer is
serialized via its JSON `toJSON` expansion rather than rejected. -/
theorem createCanonicalJson_unsupported_kinds (r : JRecord) (k : String)
    (i : Nat) (hfresh : lookupField r k = none) :
    createCanonicalJson (setField r k (JValue.func i)) =
        createCanonicalJson r ∧
      createCanonicalJson [("payload", JValue.blob [1, 2])] =
        "\x7b\"payload\":\x7b\"type\":\"Buffer\",\"data\":[1,2]\x7d\x7d" := by
  refine ⟨?_, by decide⟩
  by_cases hexcl : k ∈ excludeFields
  · unfold createCanonicalJson
    rw [cleanRecord_setField_excluded _ hexcl]
  · unfold createCanonicalJson
    suffices h : stringifyEntries (cleanRecord (setField r k (JValue.func i))) =
        stringifyEntries (cleanRecord r) by rw [h]
    unfold cleanRecord stringifyEntries
    rw [sortedKeys_setField_fresh _ hfresh hexcl]
    rw [List.filter_filterMap, List.filter_filterMap]
    rw [filterMap_orderedInsert_none _ k (by
      simp [lookupField_setField_self, JValue.isFunc])]
    refine List.filterMap_congr ?_
    intro k' hk'
    have hne : k' ≠ k := by
      intro hc
      exact lookup_none_not_mem_keys hfresh
        (hc ▸ mem_recKeys_of_mem_sortedKeys hk')
    rw [lookupField_setField_ne _ hne]

/-- Witness for `createCanonicalJson_unsupported_kinds`: adding a callable
field `compute` to a concrete record does not change its canonical
string. -/
theorem createCanonicalJson_unsupported_kinds_witness :
    lookupField [("department", JValue.str "Education")] "compute" = none ∧
    createCanonicalJson (setField [("department", JValue.str "Education")]
        "compute" (JValue.func 3)) =
      createCanonicalJson [("department", JValue.str "Education")] :=
  ⟨by decide, (createCanonicalJson_unsupported_kinds
    [("department", JValue.str "Education")] "compute" 3 (by decide)).1⟩
